import Mathlib

/-!
Verification of the ingredient-matching core of the CleanFoodApp repository:
the text normalizer, the avoid-list taxonomy and its lookup index
(`src/data/avoidList.ts`), and the verdict / badge-label logic of the
ingredient analyzer (`src/components/IngredientAnalyzer.tsx`).

Strings are modelled as Lean `String` (a packed `List Char`); the two
Unicode built-ins the source delegates to (`String.prototype.toLowerCase`,
`String.prototype.normalize('NFKD')`) are modelled character-wise, exactly
on the Basic-Latin range the taxonomy and all claims exercise.
-/

set_option maxRecDepth 100000

namespace CleanFood

/-- The JavaScript regex class `\s`: space, `\t`, `\n`, `\v`, `\f`, `\r`,
NBSP, Ogham space, the U+2000–U+200A range, line/paragraph separators,
narrow NBSP, medium mathematical space, ideographic space, and BOM. -/
def isWS (c : Char) : Bool :=
  c.toNat == 0x20 || c.toNat == 0x9 || c.toNat == 0xA || c.toNat == 0xB ||
  c.toNat == 0xC || c.toNat == 0xD || c.toNat == 0xA0 || c.toNat == 0x1680 ||
  (0x2000 ≤ c.toNat && c.toNat ≤ 0x200A) || c.toNat == 0x2028 ||
  c.toNat == 0x2029 || c.toNat == 0x202F || c.toNat == 0x205F ||
  c.toNat == 0x3000 || c.toNat == 0xFEFF

/-- Lowercase ASCII letter `a`–`z`. -/
def isLowerAZ (c : Char) : Bool := 0x61 ≤ c.toNat && c.toNat ≤ 0x7A

/-- ASCII digit `0`–`9`. -/
def isDigit09 (c : Char) : Bool := 0x30 ≤ c.toNat && c.toNat ≤ 0x39

/-- The keep-class of the source regex `[^a-z0-9+\-\s]`: a character the
fourth normalization step leaves in place. -/
def isKeepChar (c : Char) : Bool :=
  isLowerAZ c || isDigit09 c || c == '+' || c == '-' || isWS c

/-- The dash range of the source regex `[‐-―]` (hyphen,
non-breaking hyphen, figure dash, en dash, em dash, horizontal bar). -/
def isUnicodeDash (c : Char) : Bool :=
  0x2010 ≤ c.toNat && c.toNat ≤ 0x2015

/-- Modelled from the spec: the locale-independent lowercasing built-in
(`String.prototype.toLowerCase`), which is not part of the repository.
It is given exactly on the Basic-Latin range — `A`–`Z` maps to `a`–`z` —
and as the identity elsewhere; this matches the real mapping on every
character the taxonomy data and the claims exercise. -/
def lowerChar (c : Char) : Char :=
  if 0x41 ≤ c.toNat && c.toNat ≤ 0x5A then Char.ofNat (c.toNat + 32) else c

/-- Modelled from the spec: Unicode NFKD decomposition
(`String.prototype.normalize('NFKD')`), which is not part of the
repository. NFKD is the identity on ASCII; the model adds the explicit
decompositions of the two precomposed letters used while testing
(`é` → `e` + combining acute, `à` → `a` + combining grave) and is the
identity elsewhere. -/
def nfkdChar (c : Char) : List Char :=
  if c.toNat == 0xE9 then ['e', Char.ofNat 0x301]
  else if c.toNat == 0xE0 then ['a', Char.ofNat 0x300]
  else [c]

/-- Stage 1 of `normalizeIngredientName`: `.toLowerCase()`. -/
def jsToLowerCase (l : List Char) : List Char := l.map lowerChar

/-- Stage 2: `.normalize('NFKD')`. -/
def jsNFKD (l : List Char) : List Char := l.flatMap nfkdChar

/-- Stage 3: `.replace(/[‐-―]/g, '-')`. -/
def replaceDashes (l : List Char) : List Char :=
  l.map fun c => if isUnicodeDash c then '-' else c

/-- Stage 4: `.replace(/[^a-z0-9+\-\s]/g, ' ')` — every character outside
the keep-class becomes a space. -/
def replaceNonKept (l : List Char) : List Char :=
  l.map fun c => if isKeepChar c then c else ' '

/-- Helper for `.replace(/\s+/g, ' ')`: the flag records whether the scan
is inside a whitespace run whose single replacement space has already been
emitted. -/
def collapseAux (inRun : Bool) : List Char → List Char
  | [] => []
  | c :: cs =>
    if isWS c then
      if inRun then collapseAux true cs else ' ' :: collapseAux true cs
    else c :: collapseAux false cs

/-- Stage 5a: `.replace(/\s+/g, ' ')` — each maximal run of `\s`
characters becomes a single space. -/
def collapseWS (l : List Char) : List Char := collapseAux false l

/-- Left half of `.trim()`: drop leading whitespace. -/
def trimLeft (l : List Char) : List Char := l.dropWhile (isWS ·)

/-- Right half of `.trim()`: drop trailing whitespace. -/
def trimRight (l : List Char) : List Char :=
  (l.reverse.dropWhile (isWS ·)).reverse

/-- Stage 5b: `.trim()`. -/
def jsTrim (l : List Char) : List Char := trimRight (trimLeft l)

/-- The function `normalizeIngredientName` from `src/data/avoidList.ts`: the five-stage
chain lowercase → NFKD → dash folding → non-kept characters to spaces →
whitespace collapsing and trimming. -/
def normalizeIngredientName (s : String) : String :=
  ⟨jsTrim (collapseWS (replaceNonKept (replaceDashes (jsNFKD (jsToLowerCase s.data)))))⟩

/-- The closed set of section identifiers (`AvoidSectionId` in
`src/data/avoidList.ts`). -/
inductive AvoidSectionId where
  | preservatives
  | artificial
  | sweeteners
  | fatsOils
  | emulsifiers
  | flavorEnhancers
deriving DecidableEq, Repr

/-- A single flagged substance (`AvoidIngredient`). -/
structure AvoidIngredient where
  slug : String
  name : String
  reason : String
  synonyms : List String
deriving DecidableEq, Repr

/-- A titled grouping of avoid-list entries (`AvoidSection`). -/
structure AvoidSection where
  id : AvoidSectionId
  title : String
  items : List AvoidIngredient
deriving DecidableEq, Repr

/-- A lookup result (`AvoidGuideMatch`); the source field `section` is a
Lean keyword and is rendered `sectionId`. -/
structure AvoidGuideMatch where
  sectionId : AvoidSectionId
  item : AvoidIngredient
deriving DecidableEq, Repr

/-- The curated avoid-list taxonomy `avoidSections` from `src/data/avoidList.ts`. -/
def avoidSections : List AvoidSection := [
  { id := AvoidSectionId.preservatives,
    title := "Preservatives & Antioxidants",
    items := [
      { slug := "bha", name := "BHA (Butylated Hydroxyanisole)",
        reason := "Potential carcinogen, linked to hormone disruption",
        synonyms := ["bha", "butylated hydroxyanisole", "e320"] },
      { slug := "bht", name := "BHT (Butylated Hydroxytoluene)",
        reason := "May cause liver and kidney damage, potential carcinogen",
        synonyms := ["bht", "butylated hydroxytoluene", "e321"] },
      { slug := "tbhq", name := "TBHQ (Tertiary Butylhydroquinone)",
        reason := "Can cause nausea, vomiting, and behavioral changes",
        synonyms := ["tbhq", "tb hq", "tert-butylhydroquinone", "e319"] },
      { slug := "sodium-nitrites", name := "Sodium Nitrites & Nitrates",
        reason := "Can form carcinogenic nitrosamines when heated",
        synonyms := ["sodium nitrite", "sodium nitrites", "sodium nitrate", "sodium nitrates", "e250"] },
      { slug := "potassium-bromate", name := "Potassium Bromate",
        reason := "Banned in many countries, potential carcinogen",
        synonyms := ["potassium bromate", "e924"] },
      { slug := "propyl-gallate", name := "Propyl Gallate",
        reason := "May cause stomach irritation and liver problems",
        synonyms := ["propyl gallate", "e310"] },
      { slug := "calcium-propionate", name := "Calcium Propionate",
        reason := "Linked to behavioral issues in children",
        synonyms := ["calcium propionate", "e282"] },
      { slug := "sodium-benzoate", name := "Sodium Benzoate",
        reason := "Can form benzene (carcinogen) when combined with vitamin C",
        synonyms := ["sodium benzoate", "e211"] },
      { slug := "potassium-sorbate", name := "Potassium Sorbate",
        reason := "May trigger allergies and irritate skin, eyes, and respiratory system",
        synonyms := ["potassium sorbate", "e202"] }
    ] },
  { id := AvoidSectionId.artificial,
    title := "Artificial Colors & Flavors",
    items := [
      { slug := "artificial-colors", name := "Artificial Colors",
        reason := "Often petroleum-derived and linked to hyperactivity and allergies",
        synonyms := ["artificial color", "artificial colors", "artificial colour", "artificial colours", "artificial colouring"] },
      { slug := "artificial-flavors", name := "Artificial Flavors",
        reason := "Contain dozens of synthetic chemicals with no nutritional value",
        synonyms := ["artificial flavor", "artificial flavors", "artificial flavour", "artificial flavours", "artificial flavoring", "artificial flavouring"] },
      { slug := "red-dye-40", name := "Red Dye 40 (Allura Red)",
        reason := "Linked to hyperactivity in children, potential allergen",
        synonyms := ["red dye 40", "red 40", "allura red", "e129"] },
      { slug := "yellow-5", name := "Yellow 5 (Tartrazine)",
        reason := "Can cause allergic reactions and hyperactivity",
        synonyms := ["yellow 5", "tartrazine", "e102"] },
      { slug := "yellow-6", name := "Yellow 6 (Sunset Yellow)",
        reason := "May cause hyperactivity and allergic reactions",
        synonyms := ["yellow 6", "sunset yellow", "e110"] },
      { slug := "ponceau-4r", name := "Ponceau 4R",
        reason := "Synthetic red dye linked to hyperactivity and potential allergies",
        synonyms := ["ponceau 4r", "e124"] },
      { slug := "blue-1", name := "Blue 1 (Brilliant Blue)",
        reason := "May cause allergic reactions in sensitive individuals",
        synonyms := ["blue 1", "brilliant blue", "e133"] },
      { slug := "blue-2", name := "Blue 2 (Indigo Carmine)",
        reason := "Linked to brain tumors in animal studies",
        synonyms := ["blue 2", "indigo carmine", "e132"] },
      { slug := "green-3", name := "Green 3 (Fast Green)",
        reason := "Linked to bladder tumors in animal studies",
        synonyms := ["green 3", "fast green", "e143"] },
      { slug := "artificial-vanilla", name := "Artificial Vanilla (Vanillin)",
        reason := "Often petroleum-derived, lacks nutritional benefits",
        synonyms := ["artificial vanilla", "vanillin"] },
      { slug := "artificial-strawberry", name := "Artificial Strawberry Flavor",
        reason := "Contains many synthetic chemicals to mimic natural flavor",
        synonyms := ["artificial strawberry", "strawberry flavor"] }
    ] },
  { id := AvoidSectionId.sweeteners,
    title := "Artificial Sweeteners & Refined Sugars",
    items := [
      { slug := "refined-sugar", name := "Refined Sugar",
        reason := "Highly processed, spikes blood sugar and lacks nutrients",
        synonyms := ["sugar", "refined sugar", "white sugar"] },
      { slug := "invert-sugar", name := "Invert Sugar",
        reason := "High in simple sugars, rapidly elevates blood glucose",
        synonyms := ["invert sugar"] },
      { slug := "glucose-syrup", name := "Glucose Syrup",
        reason := "Highly processed sweetener that spikes blood sugar",
        synonyms := ["glucose syrup"] },
      { slug := "fructose-syrup", name := "Fructose Syrup",
        reason := "Highly refined, contributes to fatty liver and metabolic issues",
        synonyms := ["fructose syrup"] },
      { slug := "dextrose", name := "Dextrose",
        reason := "Processed glucose that causes rapid blood sugar spikes",
        synonyms := ["dextrose"] },
      { slug := "maltodextrin", name := "Maltodextrin",
        reason := "Highly processed additive that spikes blood sugar and disrupts gut bacteria",
        synonyms := ["maltodextrin"] },
      { slug := "hfcs", name := "High Fructose Corn Syrup",
        reason := "Contributes to obesity, diabetes, and liver problems",
        synonyms := ["high fructose corn syrup", "hfcs"] },
      { slug := "corn-syrup-solids", name := "Corn Syrup Solids",
        reason := "Highly processed sweetener that rapidly raises blood sugar",
        synonyms := ["corn syrup solids"] },
      { slug := "aspartame", name := "Aspartame",
        reason := "Linked to headaches, mood disorders, and potential cancer risk",
        synonyms := ["aspartame"] },
      { slug := "sucralose", name := "Sucralose (Splenda)",
        reason := "May alter gut bacteria and is not fully metabolized",
        synonyms := ["sucralose"] },
      { slug := "acesulfame-potassium", name := "Acesulfame Potassium (Ace-K)",
        reason := "Potential carcinogen with limited safety data",
        synonyms := ["acesulfame potassium", "acesulfame k", "acesulfame-k", "acesulfame"] },
      { slug := "saccharin", name := "Saccharin",
        reason := "Linked to bladder cancer in animal studies",
        synonyms := ["saccharin"] },
      { slug := "neotame", name := "Neotame",
        reason := "Chemically similar to aspartame with limited safety data",
        synonyms := ["neotame"] }
    ] },
  { id := AvoidSectionId.fatsOils,
    title := "Unhealthy Fats & Oils",
    items := [
      { slug := "palm-oil", name := "Palm Oil",
        reason := "Often highly refined and linked to deforestation and inflammation",
        synonyms := ["palm oil"] },
      { slug := "hydrogenated-oils", name := "Hydrogenated & Partially Hydrogenated Oils",
        reason := "Contain trans fats that raise LDL cholesterol and inflammation",
        synonyms := ["hydrogenated", "hydrogenated oil", "partially hydrogenated", "shortening"] },
      { slug := "mono-diglycerides", name := "Mono- and Diglycerides",
        reason := "Often contain trans fats and are highly processed",
        synonyms := ["mono and diglycerides", "mono- and diglycerides", "monoglycerides", "diglycerides"] },
      { slug := "lecithin", name := "Lecithin (Non-Organic)",
        reason := "Often GMO-derived and may contain chemical residues",
        synonyms := ["lecithin", "lecithins"] }
    ] },
  { id := AvoidSectionId.emulsifiers,
    title := "Emulsifiers & Stabilizers",
    items := [
      { slug := "carrageenan", name := "Carrageenan",
        reason := "May cause digestive inflammation and ulcers",
        synonyms := ["carrageenan"] },
      { slug := "polysorbate-80", name := "Polysorbate 80",
        reason := "May disrupt gut bacteria and cause inflammation",
        synonyms := ["polysorbate 80"] },
      { slug := "propylene-glycol", name := "Propylene Glycol",
        reason := "Synthetic additive also used in antifreeze and industrial applications",
        synonyms := ["propylene glycol"] }
    ] },
  { id := AvoidSectionId.flavorEnhancers,
    title := "Flavor Enhancers",
    items := [
      { slug := "msg", name := "MSG (Monosodium Glutamate)",
        reason := "Can cause headaches, flushing, and other sensitivity reactions",
        synonyms := ["msg", "monosodium glutamate", "e621"] }
    ] }
]

/-- The candidate-key set of one item: a JS `Set` seeded with `slug`, then
`name`, then each synonym — i.e. the first-occurrence-ordered deduplication
of that list. -/
def candidateKeys (item : AvoidIngredient) : List String :=
  (item.slug :: item.name :: item.synonyms).foldl
    (fun ks k => if k ∈ ks then ks else ks ++ [k]) []

/-- The lookup index, modelled as an insertion-ordered association list
(the JS `Map` iterates in insertion order). -/
abbrev Index := List (String × AvoidGuideMatch)

/-- Model of the JS `Map.has`. -/
def hasKey (m : Index) (k : String) : Bool := m.any fun p => p.1 == k

/-- Model of the JS `Map.get`, with `undefined` as `none`. -/
def getKey (m : Index) (k : String) : Option AvoidGuideMatch :=
  (m.find? fun p => p.1 == k).map (·.2)

/-- The body of the module-level build loop of `avoidLookup`: register one
item's candidate keys, skipping empty normalized forms and keys already
present. -/
def registerItem (sid : AvoidSectionId) (m : Index) (item : AvoidIngredient) : Index :=
  (candidateKeys item).foldl
    (fun m key =>
      let normalized := normalizeIngredientName key
      if normalized = "" then m
      else if hasKey m normalized then m
      else m ++ [(normalized, ⟨sid, item⟩)])
    m

/-- The module-level `avoidLookup` map of `src/data/avoidList.ts`, built
once from `avoidSections`. -/
def avoidLookup : Index :=
  avoidSections.foldl (fun m sec => sec.items.foldl (registerItem sec.id) m) []

/-- The function `findAvoidGuideMatch` from `src/data/avoidList.ts`; `none` stands for
the JS `undefined`/`null` argument, and the `s = ""` test is the remaining
falsy case of `if (!name)`. -/
def findAvoidGuideMatch : Option String → Option AvoidGuideMatch
  | none => none
  | some s =>
    if s = "" then none
    else getKey avoidLookup (normalizeIngredientName s)

/-- The function `listAllAvoidIngredients` from `src/data/avoidList.ts`. -/
def listAllAvoidIngredients : List AvoidGuideMatch :=
  avoidSections.foldl (fun acc sec => acc ++ sec.items.map (⟨sec.id, ·⟩)) []

/-- Modelled from the spec: the upper-casing built-in
(`String.prototype.toUpperCase`), which is not part of the repository,
given exactly on the Basic-Latin range and as the identity elsewhere. -/
def upperChar (c : Char) : Char :=
  if 0x61 ≤ c.toNat && c.toNat ≤ 0x7A then Char.ofNat (c.toNat - 32) else c

/-- One field mapper of `formatIngredientLabel`: the JS
`part ? part[0].toUpperCase() + part.slice(1) : part`. -/
def capitalizePart : List Char → List Char
  | [] => []
  | c :: cs => upperChar c :: cs

mutual

/-- Fields of the JS `split(/\s+/)`: the scan is positioned at the start
of a field. Mutual with `splitAfterRun`, which is positioned inside a
separator run. -/
def splitFields : List Char → List (List Char)
  | [] => [[]]
  | c :: cs =>
    if isWS c then [] :: splitAfterRun cs
    else
      match splitFields cs with
      | [] => [[c]]
      | f :: fs => (c :: f) :: fs

/-- Continuation of `splitFields` inside a whitespace run: further
whitespace extends the run, the first non-whitespace character opens the
next field, and end of input closes the run with a final empty field. -/
def splitAfterRun : List Char → List (List Char)
  | [] => [[]]
  | c :: cs =>
    if isWS c then splitAfterRun cs
    else
      match splitFields cs with
      | [] => [[c]]
      | f :: fs => (c :: f) :: fs

end

/-- The function `formatIngredientLabel` from
`src/components/IngredientAnalyzer.tsx`: empty input is returned as is;
a trimmed value of at most five characters without an internal space is
upper-cased; otherwise each whitespace-separated part is capitalized and
the parts are joined with single spaces. -/
def formatIngredientLabel (value : String) : String :=
  if value = "" then value
  else
    let normalized := jsTrim value.data
    if !normalized.contains ' ' && normalized.length ≤ 5 then
      ⟨normalized.map upperChar⟩
    else
      ⟨List.intercalate [' '] ((splitFields normalized).map capitalizePart)⟩

/-- A flagged-badge record (`FlaggedIngredientBadge`); the source field
`match` is a Lean keyword and is rendered `matched`. -/
structure FlaggedIngredientBadge where
  key : String
  label : String
  matched : Option AvoidGuideMatch
  original : String
deriving DecidableEq, Repr

/-- The `flaggedMatches` memo of `IngredientAnalyzer`, as a function of
the analysis hit list: each hit is resolved through `findAvoidGuideMatch`;
a match supplies the badge key and canonical label, otherwise the raw hit
and its formatted fallback label are used. -/
def flaggedMatches (hits : List String) : List FlaggedIngredientBadge :=
  if hits.isEmpty then []
  else
    hits.map fun hit =>
      let m := findAvoidGuideMatch (some hit)
      { key := match m with | some g => g.item.slug | none => hit
        label := match m with | some g => g.item.name | none => formatIngredientLabel hit
        matched := m
        original := hit }

/-- A taxonomy detail entry of the analysis payload (`TaxonomyEntry`);
all fields are optional in the source. -/
structure TaxonomyEntry where
  id : Option String
  display : Option String
  parents : Option (List String)
  synonyms : Option (List String)
  source : Option String
deriving DecidableEq, Repr

/-- The `AnalysisResult` value object of `IngredientAnalyzer`; optional
(`?`) and nullable source fields are `Option`s, with `none` covering both
`undefined` and `null`. -/
structure AnalysisResult where
  isClean : Bool
  hits : List String
  parsedIngredients : List String
  canonical : List String
  taxonomy : List TaxonomyEntry
  source : String
  html : Option String
  taxonomyError : Option String
  additivesError : Option String
  dietHits : Option (List String)
  dietPreference : Option String
  allergyHits : Option (List String)
  allergyPreferences : Option (List String)
deriving DecidableEq, Repr

/-- The `dietLabels` record of `IngredientAnalyzer`, as a partial map. -/
def dietLabels : String → Option String
  | "vegetarian" => some "Vegetarian"
  | "vegan" => some "Vegan"
  | "jain" => some "Jain"
  | _ => none

/-- The function `getDietLabel` from `IngredientAnalyzer`: falsy input
(absent, `null`, or empty) and the literal `"none"` give `null`; any
other value resolves through `dietLabels` with the value itself as the
fallback (the JS `dietLabels[value] || value`). -/
def getDietLabel : Option String → Option String
  | none => none
  | some value =>
    if value = "" then none
    else if value = "none" then none
    else some ((dietLabels value).getD value)

/-- The three verdicts of the analysis card: `notClean`,
`preferenceConflict` (rendered "Clean, but not for you"), `clean`. -/
inductive CardStatus where
  | notClean
  | preferenceConflict
  | clean
deriving DecidableEq, Repr

/-- The `hasDietConflict` binding of the analysis card: the JS
`Boolean(dietLabel && analysis.dietHits && analysis.dietHits.length > 0)`. -/
def hasDietConflict (a : AnalysisResult) : Bool :=
  (getDietLabel a.dietPreference).isSome &&
    (match a.dietHits with
     | some hs => !hs.isEmpty
     | none => false)

/-- The `hasAllergyConflict` binding: the JS
`Boolean(analysis.allergyHits && analysis.allergyHits.length > 0)`. -/
def hasAllergyConflict (a : AnalysisResult) : Bool :=
  match a.allergyHits with
  | some hs => !hs.isEmpty
  | none => false

/-- The `cardStatus` computation of the analysis card
(`src/components/IngredientAnalyzer.tsx`). -/
def cardStatus (a : AnalysisResult) : CardStatus :=
  if !a.isClean then CardStatus.notClean
  else if hasDietConflict a || hasAllergyConflict a then CardStatus.preferenceConflict
  else CardStatus.clean

/-! Claim-side definitions: phrased from the specification text, to be
compared against the source-derived functions above. -/

/-- Claim-side normalizer stage 1: locale-independent lowercasing, as a
string-level operation. -/
def claimLower (s : String) : String := ⟨s.data.map lowerChar⟩

/-- Claim-side normalizer stage 2: Unicode NFKD decomposition. -/
def claimNFKD (s : String) : String := ⟨s.data.flatMap nfkdChar⟩

/-- Claim-side normalizer stage 3: each dash variant in U+2010–U+2015
becomes an ASCII hyphen. -/
def claimDashes (s : String) : String :=
  ⟨s.data.map fun c => if isUnicodeDash c then '-' else c⟩

/-- Claim-side normalizer stage 4 as the claim words it: strip (delete)
every character that is not a lowercase ASCII letter, digit, `+`, `-`,
or whitespace. -/
def claimStrip (s : String) : String := ⟨s.data.filter isKeepChar⟩

/-- Claim-side normalizer stage 4 as the code has it: such characters are
replaced by a space instead of deleted. -/
def claimSpaceOut (s : String) : String :=
  ⟨s.data.map fun c => if isKeepChar c then c else ' '⟩

/-- Claim-side normalizer stage 5: collapse whitespace runs to one space
and trim the ends. -/
def claimCollapseTrim (s : String) : String := ⟨jsTrim (collapseWS s.data)⟩

/-- The normalizer exactly as claim C2 words it, with stage 4 a strip. -/
def claimNormalizeStrip (s : String) : String :=
  claimCollapseTrim (claimStrip (claimDashes (claimNFKD (claimLower s))))

/-- The normalizer with stage 4 corrected to a space replacement; the
amended form of claim C2. -/
def claimNormalizeReplace (s : String) : String :=
  claimCollapseTrim (claimSpaceOut (claimDashes (claimNFKD (claimLower s))))

/-- The index build exactly as claim C4 words it: sections in authoring
order, items in order, candidates slug and name first then synonyms in
authored order; each candidate is normalized and inserted only when the
normalized form is non-empty and not yet present. -/
def claimBuildIndex (sections : List AvoidSection) : Index :=
  sections.foldl
    (fun m sec =>
      sec.items.foldl
        (fun m item =>
          (item.slug :: item.name :: item.synonyms).foldl
            (fun m key =>
              let normalized := normalizeIngredientName key
              if normalized = "" then m
              else if hasKey m normalized then m
              else m ++ [(normalized, ⟨sec.id, item⟩)])
            m)
        m)
    []

/-- Claim-side C7: the whitespace-separated words of a character list —
the non-empty chunks left after splitting at whitespace characters. -/
def claimWords (l : List Char) : List (List Char) :=
  (l.splitOnP isWS).filter fun f => !f.isEmpty

/-- Claim-side C7: the fallback label — the trimmed token, fully
upper-cased when it has at most five characters and no internal space,
and otherwise title-cased word by word. -/
def claimFallbackLabel (value : String) : String :=
  let t := jsTrim value.data
  if t.length ≤ 5 && !t.contains ' ' then ⟨t.map upperChar⟩
  else ⟨List.intercalate [' '] ((claimWords t).map capitalizePart)⟩

/-- Claim-side C7: the displayed badge label of a hit — the canonical
taxonomy name when the hit resolves, the fallback label otherwise. -/
def claimBadgeLabel (hit : String) : String :=
  match findAvoidGuideMatch (some hit) with
  | some m => m.item.name
  | none => claimFallbackLabel hit

/-- Claim-side C1 (amended): a diet is actively selected — the preference
is present, non-empty, and not the literal `"none"`. -/
def dietSelected (a : AnalysisResult) : Bool :=
  match a.dietPreference with
  | none => false
  | some d => !(d == "") && !(d == "none")

/-- Claim-side C1: the diet-hit list is present and non-empty. -/
def dietHitsNonempty (a : AnalysisResult) : Bool :=
  match a.dietHits with
  | some hs => !hs.isEmpty
  | none => false

/-- Claim-side C1: the allergy-hit list is present and non-empty. -/
def allergyHitsNonempty (a : AnalysisResult) : Bool :=
  match a.allergyHits with
  | some hs => !hs.isEmpty
  | none => false

/-! Predicates for the normalized-output invariant (claim C10). -/

/-- A character of the normalized output alphabet: lowercase ASCII
letter, ASCII digit, `+`, `-`, or space. -/
def isResultChar (c : Char) : Bool :=
  isLowerAZ c || isDigit09 c || c == '+' || c == '-' || c == ' '

/-- A non-whitespace character of the keep-class. -/
def isHardChar (c : Char) : Bool :=
  isLowerAZ c || isDigit09 c || c == '+' || c == '-'

/-- A list beginning with a space. -/
def startsWithSpace : List Char → Bool
  | [] => false
  | c :: _ => c == ' '

/-- A list ending with a space. -/
def endsWithSpace (l : List Char) : Bool := startsWithSpace l.reverse

/-- No two adjacent spaces. -/
def noTwoAdjacentSpaces : List Char → Bool
  | a :: b :: t => !(a == ' ' && b == ' ') && noTwoAdjacentSpaces (b :: t)
  | _ => true

/-- No two adjacent whitespace characters (proof-side strengthening of
`noTwoAdjacentSpaces`). -/
def noAdjWS : List Char → Bool
  | a :: b :: t => !(isWS a && isWS b) && noAdjWS (b :: t)
  | _ => true

/-- The full shape invariant claimed for normalizer output: alphabet,
no leading or trailing space, no adjacent spaces. -/
def goodShape (l : List Char) : Bool :=
  l.all isResultChar && !startsWithSpace l && !endsWithSpace l &&
    noTwoAdjacentSpaces l

/-- A concrete analysis result used as the counterexample input for the
verdict claim: generally clean, with a diet hit reported while the diet
preference is the literal `"none"`. -/
def dietNoneAnalysis : AnalysisResult :=
  { isClean := true
    hits := []
    parsedIngredients := ["honey", "oats"]
    canonical := []
    taxonomy := []
    source := "text"
    html := none
    taxonomyError := none
    additivesError := none
    dietHits := some ["honey"]
    dietPreference := some "none"
    allergyHits := some []
    allergyPreferences := some [] }

/-! Character-level facts about the normalizer alphabet. -/

theorem isKeepChar_split (c : Char) : isKeepChar c = (isHardChar c || isWS c) := by
  simp [isKeepChar, isHardChar, Bool.or_assoc]

theorem isResultChar_split (c : Char) : isResultChar c = (isHardChar c || c == ' ') := by
  simp [isResultChar, isHardChar, Bool.or_assoc]

theorem isHardChar_not_ws {c : Char} (h : isHardChar c = true) : isWS c = false := by
  rw [Bool.eq_false_iff]
  intro hw
  simp only [isHardChar, isLowerAZ, isDigit09, Bool.or_eq_true, Bool.and_eq_true,
    decide_eq_true_eq, beq_iff_eq] at h
  simp only [isWS, Bool.or_eq_true, Bool.and_eq_true, decide_eq_true_eq,
    beq_iff_eq] at hw
  rcases h with ((⟨h1, h2⟩ | ⟨h1, h2⟩) | rfl | rfl) <;> first
    | omega
    | exact absurd hw (by decide)

theorem ws_of_space {c : Char} (h : (c == ' ') = true) : isWS c = true := by
  rw [beq_iff_eq] at h
  subst h
  decide

theorem resultChar_not_upper {c : Char} (h : isResultChar c = true) :
    lowerChar c = c := by
  simp only [isResultChar, isLowerAZ, isDigit09, Bool.or_eq_true, Bool.and_eq_true,
    decide_eq_true_eq, beq_iff_eq] at h
  unfold lowerChar
  rw [if_neg]
  simp only [Bool.and_eq_true, decide_eq_true_eq, not_and]
  rcases h with (((⟨h1, h2⟩ | ⟨h1, h2⟩) | rfl) | rfl) | rfl <;> first
    | omega
    | decide

theorem resultChar_nfkd {c : Char} (h : isResultChar c = true) :
    nfkdChar c = [c] := by
  simp only [isResultChar, isLowerAZ, isDigit09, Bool.or_eq_true, Bool.and_eq_true,
    decide_eq_true_eq, beq_iff_eq] at h
  unfold nfkdChar
  rw [if_neg, if_neg]
  · simp only [beq_iff_eq]
    rcases h with (((⟨h1, h2⟩ | ⟨h1, h2⟩) | rfl) | rfl) | rfl <;> first
      | omega
      | decide
  · simp only [beq_iff_eq]
    rcases h with (((⟨h1, h2⟩ | ⟨h1, h2⟩) | rfl) | rfl) | rfl <;> first
      | omega
      | decide

theorem resultChar_not_dash {c : Char} (h : isResultChar c = true) :
    isUnicodeDash c = false := by
  rw [Bool.eq_false_iff]
  intro hd
  simp only [isResultChar, isLowerAZ, isDigit09, Bool.or_eq_true, Bool.and_eq_true,
    decide_eq_true_eq, beq_iff_eq] at h
  simp only [isUnicodeDash, Bool.and_eq_true, decide_eq_true_eq] at hd
  rcases h with (((⟨h1, h2⟩ | ⟨h1, h2⟩) | rfl) | rfl) | rfl <;> first
    | omega
    | exact absurd hd (by decide)

theorem resultChar_keep {c : Char} (h : isResultChar c = true) :
    isKeepChar c = true := by
  rw [isKeepChar_split]
  rw [isResultChar_split] at h
  rcases Bool.or_eq_true_iff.mp h with h | h
  · simp [h]
  · simp [ws_of_space h]

theorem resultChar_ws_iff {c : Char} (h : isResultChar c = true) :
    isWS c = (c == ' ') := by
  rw [isResultChar_split] at h
  rcases Bool.or_eq_true_iff.mp h with h | h
  · have hs : (c == ' ') = false := by
      rw [Bool.eq_false_iff]
      intro hs
      rw [beq_iff_eq] at hs
      subst hs
      exact absurd h (by decide)
    rw [isHardChar_not_ws h, hs]
  · rw [h, ws_of_space h]

theorem hardChar_resultChar {c : Char} (h : isHardChar c = true) :
    isResultChar c = true := by
  rw [isResultChar_split, h, Bool.true_or]

/-! Facts about the whitespace-collapsing stage. -/

theorem collapseAux_cons_ws_true {c : Char} {cs : List Char} (h : isWS c = true) :
    collapseAux true (c :: cs) = collapseAux true cs := by
  simp [collapseAux, h]

theorem collapseAux_cons_ws_false {c : Char} {cs : List Char} (h : isWS c = true) :
    collapseAux false (c :: cs) = ' ' :: collapseAux true cs := by
  simp [collapseAux, h]

theorem collapseAux_cons_not_ws {c : Char} {cs : List Char} (b : Bool)
    (h : isWS c = false) : collapseAux b (c :: cs) = c :: collapseAux false cs := by
  cases b <;> simp [collapseAux, h]

theorem replaceNonKept_chars (l : List Char) :
    ∀ c ∈ replaceNonKept l, isHardChar c = true ∨ isWS c = true := by
  intro c hc
  simp only [replaceNonKept, List.mem_map] at hc
  obtain ⟨x, _, rfl⟩ := hc
  by_cases hk : isKeepChar x = true
  · rw [if_pos hk]
    rw [isKeepChar_split] at hk
    exact Bool.or_eq_true_iff.mp hk
  · rw [if_neg hk]
    right
    decide

theorem collapseAux_chars (l : List Char) :
    ∀ (b : Bool), (∀ c ∈ l, isHardChar c = true ∨ isWS c = true) →
      ∀ c ∈ collapseAux b l, isHardChar c = true ∨ c = ' ' := by
  induction l with
  | nil => intro b _ c hc; simp [collapseAux] at hc
  | cons x t ih =>
    intro b h c hc
    have hx := h x (List.mem_cons_self x t)
    have ht : ∀ c ∈ t, isHardChar c = true ∨ isWS c = true :=
      fun c hc => h c (List.mem_cons_of_mem x hc)
    by_cases hw : isWS x = true
    · cases b with
      | true =>
        rw [collapseAux_cons_ws_true hw] at hc
        exact ih true ht c hc
      | false =>
        rw [collapseAux_cons_ws_false hw] at hc
        rcases List.mem_cons.mp hc with rfl | hc
        · right; rfl
        · exact ih true ht c hc
    · rw [Bool.not_eq_true] at hw
      rw [collapseAux_cons_not_ws b hw] at hc
      rcases List.mem_cons.mp hc with rfl | hc
      · left
        rcases hx with hx | hx
        · exact hx
        · exact absurd hx (by simp [hw])
      · exact ih false ht c hc

theorem collapseAux_noAdj (l : List Char) :
    noAdjWS (collapseAux false l) = true ∧ noAdjWS (collapseAux true l) = true ∧
      ∀ c, (collapseAux true l).head? = some c → isWS c = false := by
  induction l with
  | nil => exact ⟨rfl, rfl, fun c hc => by simp [collapseAux] at hc⟩
  | cons x t ih =>
    obtain ⟨ih1, ih2, ih3⟩ := ih
    by_cases hw : isWS x = true
    · refine ⟨?_, ?_, ?_⟩
      · rw [collapseAux_cons_ws_false hw]
        cases hX : collapseAux true t with
        | nil => rfl
        | cons d r =>
          have hd : isWS d = false := ih3 d (by rw [hX]; rfl)
          rw [hX] at ih2
          simp [noAdjWS, hd, ih2]
      · rw [collapseAux_cons_ws_true hw]
        exact ih2
      · intro c hc
        rw [collapseAux_cons_ws_true hw] at hc
        exact ih3 c hc
    · rw [Bool.not_eq_true] at hw
      refine ⟨?_, ?_, ?_⟩ <;> rw [collapseAux_cons_not_ws _ hw]
      · cases hX : collapseAux false t with
        | nil => rfl
        | cons d r =>
          rw [hX] at ih1
          simp [noAdjWS, hw, ih1]
      · cases hX : collapseAux false t with
        | nil => rfl
        | cons d r =>
          rw [hX] at ih1
          simp [noAdjWS, hw, ih1]
      · intro c hc
        simp only [List.head?_cons, Option.some.injEq] at hc
        rw [← hc]
        exact hw

theorem noAdjWS_tail {a : Char} {t : List Char} (h : noAdjWS (a :: t) = true) :
    noAdjWS t = true := by
  cases t with
  | nil => rfl
  | cons b r =>
    simp only [noAdjWS, Bool.and_eq_true] at h
    exact h.2

theorem collapseAux_fix :
    ∀ (n : Nat) (l : List Char), l.length ≤ n →
      (∀ c ∈ l, isHardChar c = true ∨ c = ' ') → noAdjWS l = true →
      startsWithSpace l = false → collapseAux false l = l := by
  intro n
  induction n with
  | zero =>
    intro l hl _ _ _
    rw [Nat.le_zero, List.length_eq_zero] at hl
    subst hl
    rfl
  | succ n ih =>
    intro l hl hchars hadj hstart
    cases l with
    | nil => rfl
    | cons c t =>
      have hcW : isWS c = false := by
        rcases hchars c (List.mem_cons_self c t) with h | rfl
        · exact isHardChar_not_ws h
        · exact absurd hstart (by simp [startsWithSpace])
      rw [collapseAux_cons_not_ws false hcW]
      congr 1
      cases t with
      | nil => rfl
      | cons d r =>
        by_cases hd : isWS d = true
        · have hd' : d = ' ' := by
            rcases hchars d (by simp) with h | h
            · exact absurd (isHardChar_not_ws h) (by simp [hd])
            · exact h
          subst hd'
          rw [collapseAux_cons_ws_false (by decide)]
          congr 1
          cases r with
          | nil => rfl
          | cons e s =>
            have he : isWS e = false := by
              simp only [noAdjWS, Bool.and_eq_true, Bool.not_eq_true',
                Bool.and_eq_false_iff] at hadj
              rcases hadj.2.1 with h | h
              · exact absurd h (by decide)
              · exact h
            rw [collapseAux_cons_not_ws true he, ← collapseAux_cons_not_ws false he]
            refine ih (e :: s) ?_ ?_ ?_ ?_
            · simp only [List.length_cons] at hl ⊢
              omega
            · intro x hx
              exact hchars x (by simp [hx])
            · exact noAdjWS_tail (noAdjWS_tail hadj)
            · simp only [startsWithSpace, Bool.eq_false_iff]
              intro hs
              exact absurd (ws_of_space hs) (by simp [he])
        · rw [Bool.not_eq_true] at hd
          refine ih (d :: r) ?_ ?_ ?_ ?_
          · simp only [List.length_cons] at hl ⊢
            omega
          · intro x hx
            exact hchars x (by simp [hx])
          · exact noAdjWS_tail hadj
          · simp only [startsWithSpace, Bool.eq_false_iff]
            intro hs
            exact absurd (ws_of_space hs) (by simp [hd])

/-! Facts about trimming and the shape invariant. -/

theorem head?_dropWhile {α : Type} (p : α → Bool) :
    ∀ (l : List α) (c : α), (l.dropWhile p).head? = some c → p c = false := by
  intro l
  induction l with
  | nil => intro c hc; simp at hc
  | cons x t ih =>
    intro c hc
    by_cases hx : p x = true
    · rw [List.dropWhile_cons_of_pos hx] at hc
      exact ih c hc
    · rw [Bool.not_eq_true] at hx
      rw [List.dropWhile_cons_of_neg (by simp [hx])] at hc
      simp only [List.head?_cons, Option.some.injEq] at hc
      rw [← hc]
      exact hx

theorem mem_trimLeft {c : Char} {l : List Char} (h : c ∈ trimLeft l) : c ∈ l :=
  (List.dropWhile_sublist (isWS ·)).mem h

theorem mem_trimRight {c : Char} {l : List Char} (h : c ∈ trimRight l) : c ∈ l := by
  simp only [trimRight, List.mem_reverse] at h
  have := (List.dropWhile_sublist (isWS ·)).mem h
  rwa [List.mem_reverse] at this

theorem trimRight_isPrefix (l : List Char) : trimRight l <+: l := by
  rw [← List.reverse_suffix, trimRight, List.reverse_reverse]
  exact List.dropWhile_suffix (isWS ·)

theorem reverse_trimRight (l : List Char) :
    (trimRight l).reverse = l.reverse.dropWhile (isWS ·) := by
  rw [trimRight, List.reverse_reverse]

theorem noAdjWS_iff_chain (l : List Char) :
    noAdjWS l = true ↔ List.Chain' (fun a b => (!(isWS a && isWS b)) = true) l := by
  induction l with
  | nil => simp [noAdjWS]
  | cons a t ih =>
    cases t with
    | nil => simp [noAdjWS]
    | cons b r =>
      rw [List.chain'_cons]
      simp only [noAdjWS, Bool.and_eq_true]
      exact and_congr Iff.rfl ih

theorem noAdjWS_of_suffix {l₁ l₂ : List Char} (h : l₁ <:+ l₂)
    (hl : noAdjWS l₂ = true) : noAdjWS l₁ = true :=
  (noAdjWS_iff_chain l₁).mpr (((noAdjWS_iff_chain l₂).mp hl).suffix h)

theorem noAdjWS_of_isPrefix {l₁ l₂ : List Char} (h : l₁ <+: l₂)
    (hl : noAdjWS l₂ = true) : noAdjWS l₁ = true :=
  (noAdjWS_iff_chain l₁).mpr ( List.Chain'.prefix ((noAdjWS_iff_chain l₂).mp hl) h)

theorem noTwo_of_noAdj : ∀ (l : List Char), noAdjWS l = true →
    noTwoAdjacentSpaces l = true := by
  intro l
  induction l with
  | nil => intro; rfl
  | cons a t ih =>
    intro h
    cases t with
    | nil => rfl
    | cons b r =>
      simp only [noAdjWS, Bool.and_eq_true, Bool.not_eq_true',
        Bool.and_eq_false_iff] at h
      simp only [noTwoAdjacentSpaces, Bool.and_eq_true, Bool.not_eq_true',
        Bool.and_eq_false_iff]
      refine ⟨?_, ih h.2⟩
      rcases h.1 with h1 | h1
      · left
        rw [Bool.eq_false_iff]
        intro hs
        exact absurd (ws_of_space hs) (by simp [h1])
      · right
        rw [Bool.eq_false_iff]
        intro hs
        exact absurd (ws_of_space hs) (by simp [h1])

theorem noAdj_of_noTwo : ∀ (l : List Char), (∀ c ∈ l, isResultChar c = true) →
    noTwoAdjacentSpaces l = true → noAdjWS l = true := by
  intro l
  induction l with
  | nil => intro _ _; rfl
  | cons a t ih =>
    intro hchars h
    cases t with
    | nil => rfl
    | cons b r =>
      simp only [noTwoAdjacentSpaces, Bool.and_eq_true, Bool.not_eq_true',
        Bool.and_eq_false_iff] at h
      simp only [noAdjWS, Bool.and_eq_true, Bool.not_eq_true',
        Bool.and_eq_false_iff]
      refine ⟨?_, ih (fun c hc => hchars c (List.mem_cons_of_mem a hc)) h.2⟩
      rcases h.1 with h1 | h1
      · left
        rw [resultChar_ws_iff (hchars a (by simp))]
        exact h1
      · right
        rw [resultChar_ws_iff (hchars b (by simp))]
        exact h1

theorem goodShape_core (l0 : List Char) :
    goodShape (jsTrim (collapseWS (replaceNonKept l0))) = true := by
  have hchars : ∀ c ∈ collapseWS (replaceNonKept l0), isHardChar c = true ∨ c = ' ' :=
    collapseAux_chars (replaceNonKept l0) false (replaceNonKept_chars l0)
  have hadj : noAdjWS (collapseWS (replaceNonKept l0)) = true :=
    (collapseAux_noAdj (replaceNonKept l0)).1
  have hmemT : ∀ c ∈ jsTrim (collapseWS (replaceNonKept l0)),
      isHardChar c = true ∨ c = ' ' :=
    fun c hc => hchars c (mem_trimLeft (mem_trimRight hc))
  have hTL : noAdjWS (trimLeft (collapseWS (replaceNonKept l0))) = true :=
    noAdjWS_of_suffix (List.dropWhile_suffix (isWS ·)) hadj
  have hT : noAdjWS (jsTrim (collapseWS (replaceNonKept l0))) = true :=
    noAdjWS_of_isPrefix (trimRight_isPrefix _) hTL
  simp only [goodShape, Bool.and_eq_true, Bool.not_eq_true', List.all_eq_true]
  refine ⟨⟨⟨?_, ?_⟩, ?_⟩, ?_⟩
  · intro c hc
    rcases hmemT c hc with h | rfl
    · exact hardChar_resultChar h
    · decide
  · cases hTcase : jsTrim (collapseWS (replaceNonKept l0)) with
    | nil => rfl
    | cons c r =>
      have hpre := trimRight_isPrefix (trimLeft (collapseWS (replaceNonKept l0)))
      rw [jsTrim] at hTcase
      rw [hTcase] at hpre
      obtain ⟨u, hu⟩ := hpre
      have hhead : (trimLeft (collapseWS (replaceNonKept l0))).head? = some c := by
        rw [← hu]
        rfl
      have hc := head?_dropWhile (isWS ·) _ c hhead
      simp only [startsWithSpace, Bool.eq_false_iff]
      intro hs
      exact absurd (ws_of_space hs) (by simp [hc])
  · rw [endsWithSpace, jsTrim, reverse_trimRight]
    cases hX : (trimLeft (collapseWS (replaceNonKept l0))).reverse.dropWhile (isWS ·) with
    | nil => rfl
    | cons c r =>
      have hc := head?_dropWhile (isWS ·) _ c (by rw [hX]; rfl)
      simp only [startsWithSpace, Bool.eq_false_iff]
      intro hs
      exact absurd (ws_of_space hs) (by simp [hc])
  · exact noTwo_of_noAdj _ hT

/-! The normalizer fixes its own output. -/

theorem map_id_of {α : Type} (f : α → α) :
    ∀ (l : List α), (∀ c ∈ l, f c = c) → l.map f = l := by
  intro l
  induction l with
  | nil => intro _; rfl
  | cons x t ih =>
    intro h
    rw [List.map_cons, h x (List.mem_cons_self x t),
      ih (fun c hc => h c (List.mem_cons_of_mem x hc))]

theorem flatMap_id_of (g : Char → List Char) :
    ∀ (l : List Char), (∀ c ∈ l, g c = [c]) → l.flatMap g = l := by
  intro l
  induction l with
  | nil => intro _; rfl
  | cons x t ih =>
    intro h
    rw [List.flatMap_cons, h x (List.mem_cons_self x t),
      ih (fun c hc => h c (List.mem_cons_of_mem x hc))]
    rfl

theorem goodShape_chars {l : List Char} (h : goodShape l = true) :
    ∀ c ∈ l, isResultChar c = true := by
  simp only [goodShape, Bool.and_eq_true, List.all_eq_true] at h
  exact h.1.1.1

theorem goodShape_start {l : List Char} (h : goodShape l = true) :
    startsWithSpace l = false := by
  simp only [goodShape, Bool.and_eq_true, Bool.not_eq_true'] at h
  exact h.1.1.2

theorem goodShape_end {l : List Char} (h : goodShape l = true) :
    endsWithSpace l = false := by
  simp only [goodShape, Bool.and_eq_true, Bool.not_eq_true'] at h
  exact h.1.2

theorem goodShape_noTwo {l : List Char} (h : goodShape l = true) :
    noTwoAdjacentSpaces l = true := by
  simp only [goodShape, Bool.and_eq_true] at h
  exact h.2

theorem goodShape_head_not_ws {l : List Char} (h : goodShape l = true) :
    ∀ c, l.head? = some c → isWS c = false := by
  intro c hc
  cases l with
  | nil => simp at hc
  | cons a t =>
    simp only [List.head?_cons, Option.some.injEq] at hc
    have hstart := goodShape_start h
    simp only [startsWithSpace] at hstart
    rw [← hc]
    rw [resultChar_ws_iff (goodShape_chars h a (by simp))]
    exact hstart

theorem normalizeList_fix (l : List Char) (h : goodShape l = true) :
    jsTrim (collapseWS (replaceNonKept (replaceDashes (jsNFKD (jsToLowerCase l))))) = l := by
  have hchars := goodShape_chars h
  have h1 : jsToLowerCase l = l :=
    map_id_of lowerChar l fun c hc => resultChar_not_upper (hchars c hc)
  have h2 : jsNFKD l = l :=
    flatMap_id_of nfkdChar l fun c hc => resultChar_nfkd (hchars c hc)
  have h3 : replaceDashes l = l := by
    refine map_id_of _ l fun c hc => ?_
    rw [resultChar_not_dash (hchars c hc)]
    simp
  have h4 : replaceNonKept l = l := by
    refine map_id_of _ l fun c hc => ?_
    rw [resultChar_keep (hchars c hc)]
    simp
  have h5 : collapseWS l = l := by
    refine collapseAux_fix l.length l (Nat.le_refl _) ?_ ?_ (goodShape_start h)
    · intro c hc
      have := hchars c hc
      rw [isResultChar_split] at this
      rcases Bool.or_eq_true_iff.mp this with hX | hX
      · exact Or.inl hX
      · exact Or.inr (by rwa [beq_iff_eq] at hX)
    · exact noAdj_of_noTwo l hchars (goodShape_noTwo h)
  have h6 : trimLeft l = l := by
    cases l with
    | nil => rfl
    | cons a t =>
      have ha : isWS a = false := goodShape_head_not_ws h a rfl
      rw [trimLeft, List.dropWhile_cons_of_neg (by simp [ha])]
  have h7 : trimRight l = l := by
    rw [trimRight]
    cases hrev : l.reverse with
    | nil =>
      rw [List.reverse_eq_nil_iff] at hrev
      subst hrev
      rfl
    | cons a t =>
      have hmem : a ∈ l := by
        rw [← List.mem_reverse, hrev]
        simp
      have hend := goodShape_end h
      rw [endsWithSpace, hrev] at hend
      simp only [startsWithSpace] at hend
      have ha : isWS a = false := by
        rw [resultChar_ws_iff (hchars a hmem)]
        exact hend
      rw [List.dropWhile_cons_of_neg (by simp [ha]), ← hrev, List.reverse_reverse]
  rw [h1, h2, h3, h4, h5, jsTrim, h6, h7]

theorem normalize_goodShape (s : String) :
    goodShape (normalizeIngredientName s).data = true :=
  goodShape_core (replaceDashes (jsNFKD (jsToLowerCase s.data)))

theorem normalize_fix_str (s : String) (h : goodShape s.data = true) :
    normalizeIngredientName s = s := by
  cases s with
  | mk d =>
    show (⟨jsTrim (collapseWS (replaceNonKept (replaceDashes (jsNFKD (jsToLowerCase d)))))⟩ : String) = ⟨d⟩
    rw [normalizeList_fix d h]

theorem normalize_idem (s : String) :
    normalizeIngredientName (normalizeIngredientName s) = normalizeIngredientName s :=
  normalize_fix_str (normalizeIngredientName s) (normalize_goodShape s)

/-! Facts about the whitespace split used for title-casing. -/

theorem mem_of_head?my {α : Type} {l : List α} {a : α} (h : l.head? = some a) :
    a ∈ l := by
  cases l with
  | nil => simp at h
  | cons x t =>
    simp only [List.head?_cons, Option.some.injEq] at h
    rw [← h]
    exact List.mem_cons_self x t

theorem mem_of_getLast?my {α : Type} {l : List α} {a : α}
    (h : l.getLast? = some a) : a ∈ l := by
  rw [← List.head?_reverse] at h
  rw [← List.mem_reverse]
  exact mem_of_head?my h

theorem getLast?_cons_ne {α : Type} (a : α) {l : List α} (h : l ≠ []) :
    (a :: l).getLast? = l.getLast? := by
  cases l with
  | nil => exact absurd rfl h
  | cons b t => exact List.getLast?_cons_cons

theorem getLast?_suffix {α : Type} {l₁ l₂ : List α} (h : l₂ <:+ l₁)
    (hne : l₂ ≠ []) : l₁.getLast? = l₂.getLast? := by
  obtain ⟨t, rfl⟩ := h
  induction t with
  | nil => rfl
  | cons a t ih =>
    rw [List.cons_append, getLast?_cons_ne a (by simp [hne]), ih]

theorem split_ne_nil : ∀ l : List Char, splitFields l ≠ [] ∧ splitAfterRun l ≠ [] := by
  intro l
  induction l with
  | nil => exact ⟨by simp [splitFields], by simp [splitAfterRun]⟩
  | cons c cs ih =>
    by_cases hc : isWS c = true
    · constructor
      · simp [splitFields, hc]
      · simp only [splitAfterRun, hc, if_true]
        exact ih.2
    · rw [Bool.not_eq_true] at hc
      constructor
      · simp only [splitFields, hc, Bool.false_eq_true, if_false]
        cases splitFields cs with
        | nil => simp
        | cons f fs => simp
      · simp only [splitAfterRun, hc, Bool.false_eq_true, if_false]
        cases splitFields cs with
        | nil => simp
        | cons f fs => simp

theorem splitFields_cons_ws {c : Char} {cs : List Char} (h : isWS c = true) :
    splitFields (c :: cs) = [] :: splitAfterRun cs := by
  simp [splitFields, h]

theorem splitFields_cons_not {c : Char} {cs : List Char} (h : isWS c = false) :
    splitFields (c :: cs) = (splitFields cs).modifyHead (List.cons c) := by
  simp only [splitFields, h, Bool.false_eq_true, if_false]
  cases hX : splitFields cs with
  | nil => exact absurd hX (split_ne_nil cs).1
  | cons f fs => rfl

theorem splitAfterRun_cons_ws {c : Char} {cs : List Char} (h : isWS c = true) :
    splitAfterRun (c :: cs) = splitAfterRun cs := by
  simp [splitAfterRun, h]

theorem splitAfterRun_cons_not {c : Char} {cs : List Char} (h : isWS c = false) :
    splitAfterRun (c :: cs) = (splitFields cs).modifyHead (List.cons c) := by
  simp only [splitAfterRun, h, Bool.false_eq_true, if_false]
  cases hX : splitFields cs with
  | nil => exact absurd hX (split_ne_nil cs).1
  | cons f fs => rfl

theorem splitAfterRun_eq (l : List Char) :
    splitAfterRun l = splitFields (l.dropWhile (isWS ·)) := by
  induction l with
  | nil => rfl
  | cons c cs ih =>
    by_cases hc : isWS c = true
    · rw [splitAfterRun_cons_ws hc, List.dropWhile_cons_of_pos (by simpa using hc), ih]
    · rw [Bool.not_eq_true] at hc
      rw [splitAfterRun_cons_not hc, List.dropWhile_cons_of_neg (by simpa using hc),
        splitFields_cons_not hc]

theorem claimWords_cons_ws {c : Char} {l : List Char} (h : isWS c = true) :
    claimWords (c :: l) = claimWords l := by
  rw [claimWords, List.splitOnP_cons _ _ _, if_pos h, claimWords]
  simp

theorem claimWords_dropWhile (l : List Char) :
    claimWords (l.dropWhile (isWS ·)) = claimWords l := by
  induction l with
  | nil => rfl
  | cons c cs ih =>
    by_cases hc : isWS c = true
    · rw [List.dropWhile_cons_of_pos (by simpa using hc), ih, claimWords_cons_ws hc]
    · rw [List.dropWhile_cons_of_neg (by simpa using hc)]

theorem splitFields_eq_claimWords :
    ∀ (n : Nat) (l : List Char), l.length ≤ n → l ≠ [] →
      (∀ c, l.head? = some c → isWS c = false) →
      (∀ c, l.getLast? = some c → isWS c = false) →
      splitFields l = claimWords l := by
  intro n
  induction n with
  | zero =>
    intro l hl hne _ _
    rw [Nat.le_zero, List.length_eq_zero] at hl
    exact absurd hl hne
  | succ n ih =>
    intro l hl hne hhead hlast
    cases l with
    | nil => exact absurd rfl hne
    | cons c cs =>
      have hc : isWS c = false := hhead c rfl
      rw [splitFields_cons_not hc, claimWords, List.splitOnP_cons _ _ _, if_neg (by simp [hc])]
      cases cs with
      | nil => simp [splitFields, claimWords, List.splitOnP_nil]
      | cons d cs' =>
        by_cases hd : isWS d = true
        · -- the head field is [c]; the run after d is skipped
          rw [splitFields_cons_ws hd, splitAfterRun_eq]
          rw [List.splitOnP_cons _ _ _, if_pos hd]
          have hne' : cs'.dropWhile (isWS ·) ≠ [] := by
            intro habs
            have hall : ∀ x ∈ cs', isWS x = true := by
              intro x hx
              have := List.dropWhile_eq_nil_iff.mp habs x hx
              simpa using this
            cases cs' with
            | nil => exact absurd (hlast d rfl) (by simp [hd])
            | cons e cs'' =>
              have hlast2 : (c :: d :: e :: cs'').getLast? = (e :: cs'').getLast? := by
                rw [List.getLast?_cons_cons, List.getLast?_cons_cons]
              cases hgl : (e :: cs'').getLast? with
              | none => simp [List.getLast?_eq_none_iff] at hgl
              | some x =>
                have hx : isWS x = false := hlast x (by rw [hlast2, hgl])
                have : x ∈ e :: cs'' := mem_of_getLast?my hgl
                exact absurd (hall x this) (by simp [hx])
          have hcs'ne : cs' ≠ [] := by
            intro habs
            subst habs
            exact hne' rfl
          have hrec : splitFields (cs'.dropWhile (isWS ·)) =
              claimWords (cs'.dropWhile (isWS ·)) := by
            refine ih _ ?_ hne' ?_ ?_
            · have h1 : (cs'.dropWhile (isWS ·)).length ≤ cs'.length :=
                (List.dropWhile_sublist _).length_le
              simp only [List.length_cons] at hl
              omega
            · intro x hx
              exact head?_dropWhile (isWS ·) cs' x hx
            · intro x hx
              have hsuf : cs'.dropWhile (isWS ·) <:+ cs' := List.dropWhile_suffix _
              have : cs'.getLast? = some x := by
                rw [getLast?_suffix hsuf hne', hx]
              have hL : (c :: d :: cs').getLast? = cs'.getLast? := by
                rw [List.getLast?_cons_cons, getLast?_cons_ne d hcs'ne]
              exact hlast x (by rw [hL, this])
          rw [hrec, claimWords_dropWhile]
          rw [claimWords]
          simp [claimWords]
        · rw [Bool.not_eq_true] at hd
          have hrec : splitFields (d :: cs') = claimWords (d :: cs') := by
            refine ih _ ?_ (by simp) ?_ ?_
            · simp only [List.length_cons] at hl ⊢
              omega
            · intro x hx
              simp only [List.head?_cons, Option.some.injEq] at hx
              rw [← hx]
              exact hd
            · intro x hx
              refine hlast x ?_
              rw [List.getLast?_cons_cons]
              exact hx
          rw [hrec]
          cases hy : (d :: cs').splitOnP isWS with
          | nil => exact absurd hy (List.splitOnP_ne_nil _ _)
          | cons y ys =>
            have hyne : y ≠ [] := by
              rw [List.splitOnP_cons _ _ _, if_neg (by simp [hd])] at hy
              cases hz : cs'.splitOnP isWS with
              | nil => exact absurd hz (List.splitOnP_ne_nil _ _)
              | cons z zs =>
                rw [hz] at hy
                simp only [List.modifyHead, List.cons.injEq] at hy
                rw [← hy.1]
                simp
            rw [claimWords, hy]
            cases y with
            | nil => exact absurd rfl hyne
            | cons u us => simp [List.modifyHead]

/-! The ends of a trimmed list are not whitespace. -/

theorem jsTrim_head_not_ws (l : List Char) :
    ∀ c, (jsTrim l).head? = some c → isWS c = false := by
  intro c hc
  have hpre := trimRight_isPrefix (trimLeft l)
  rw [jsTrim] at hc
  obtain ⟨u, hu⟩ := hpre
  cases hT : trimRight (trimLeft l) with
  | nil => rw [hT] at hc; simp at hc
  | cons a r =>
    rw [hT] at hc hu
    simp only [List.head?_cons, Option.some.injEq] at hc
    have hhead : (trimLeft l).head? = some a := by
      rw [← hu]
      rfl
    have := head?_dropWhile (isWS ·) l a hhead
    rw [← hc]
    simpa using this

theorem jsTrim_last_not_ws (l : List Char) :
    ∀ c, (jsTrim l).getLast? = some c → isWS c = false := by
  intro c hc
  rw [← List.head?_reverse, jsTrim, reverse_trimRight] at hc
  have := head?_dropWhile (isWS ·) (trimLeft l).reverse c hc
  simpa using this

/-- The fallback label of the source agrees with the claim-side fallback
label on every input. -/
theorem formatLabel_eq_claim (value : String) :
    formatIngredientLabel value = claimFallbackLabel value := by
  by_cases hv : value = ""
  · subst hv
    decide
  · simp only [formatIngredientLabel, claimFallbackLabel, if_neg hv]
    rw [Bool.and_comm]
    split
    · rfl
    · rename_i hb
      have hne : jsTrim value.data ≠ [] := by
        intro habs
        rw [habs] at hb
        exact hb (by decide)
      rw [splitFields_eq_claimWords (jsTrim value.data).length (jsTrim value.data)
        (Nat.le_refl _) hne (jsTrim_head_not_ws value.data) (jsTrim_last_not_ws value.data)]

/-! Facts about the verdict computation. -/

theorem getDietLabel_isSome (a : AnalysisResult) :
    (getDietLabel a.dietPreference).isSome = dietSelected a := by
  cases hp : a.dietPreference with
  | none => simp [getDietLabel, dietSelected, hp]
  | some d =>
    by_cases h1 : d = ""
    · subst h1
      simp [getDietLabel, dietSelected, hp]
    · by_cases h2 : d = "none"
      · subst h2
        simp [getDietLabel, dietSelected, hp]
      · simp [getDietLabel, dietSelected, hp, h1, h2]

theorem hasDietConflict_eq (a : AnalysisResult) :
    hasDietConflict a = (dietSelected a && dietHitsNonempty a) := by
  rw [hasDietConflict, getDietLabel_isSome]
  rfl

/-! Concrete facts about the shipped lookup index. -/

theorem getKey_avoidLookup_empty : getKey avoidLookup "" = none := by decide

/-! The claims. -/

/-- C1, counterexample: the displayed verdict is NOT a function of
`isClean`, `dietHits` and `allergyHits` alone — with `isClean = true`,
non-empty `dietHits`, and `dietPreference = "none"`, the card shows
`clean`, not `preferenceConflict` as the claim requires. -/
theorem verdict_ignores_diet_hits_without_preference :
    dietNoneAnalysis.isClean = true ∧ dietNoneAnalysis.dietHits = some ["honey"] ∧
      cardStatus dietNoneAnalysis = CardStatus.clean ∧
      decide (cardStatus dietNoneAnalysis = CardStatus.preferenceConflict) = false := by
  decide

/-- C1, amended: the displayed verdict is computed from `isClean`,
`dietPreference`, `dietHits` and `allergyHits`: it is `notClean` whenever
`isClean` is false (absolute precedence); `preferenceConflict` whenever
`isClean` is true and either a diet other than `"none"` is selected with
non-empty `dietHits`, or `allergyHits` is non-empty; and `clean`
otherwise. -/
theorem verdict_characterization (a : AnalysisResult) :
    cardStatus a =
      if a.isClean then
        (if (dietSelected a && dietHitsNonempty a) || allergyHitsNonempty a then
          CardStatus.preferenceConflict
        else CardStatus.clean)
      else CardStatus.notClean := by
  rw [cardStatus, hasDietConflict_eq]
  have hall : hasAllergyConflict a = allergyHitsNonempty a := rfl
  rw [hall]
  cases hc : a.isClean <;> simp

/-- C2, counterexample: step 4 of the normalizer does not strip the
excluded characters — it replaces them with a space, so `"a.b"`
normalizes to `"a b"` rather than the `"ab"` the claimed composition
produces. -/
theorem normalize_differs_from_strip_composition :
    normalizeIngredientName "a.b" = "a b" ∧ claimNormalizeStrip "a.b" = "ab" ∧
      (normalizeIngredientName "a.b" == claimNormalizeStrip "a.b") = false := by
  decide

/-- C2, amended: `normalizeIngredientName` equals the composition of
lowercasing, NFKD decomposition, dash folding, replacing every character
outside the kept alphabet with a space, and whitespace collapsing plus
trimming, in this order. -/
theorem normalize_is_stage_composition (s : String) :
    normalizeIngredientName s = claimNormalizeReplace s := rfl

/-- C3: `normalizeIngredientName` is idempotent. -/
theorem normalizeIngredientName_idempotent (s : String) :
    normalizeIngredientName (normalizeIngredientName s) = normalizeIngredientName s :=
  normalize_idem s

/-- C4: the shipped lookup index equals the first-writer-wins build the
claim describes (sections, items, then slug, name and synonyms in
authored order; empty normalized keys skipped; existing keys never
overwritten), and the empty string is never a key. -/
theorem avoidLookup_build_spec :
    avoidLookup = claimBuildIndex avoidSections ∧
      (avoidLookup.all fun p => !(p.1 == "")) = true := by
  decide

/-- C5: `findAvoidGuideMatch` is total by construction and returns `none`
exactly for absent input, the empty string, inputs whose normalized form
is empty, and inputs whose normalized form is not a key; otherwise it
returns the stored match. -/
theorem findAvoidGuideMatch_contract :
    findAvoidGuideMatch none = none ∧
    findAvoidGuideMatch (some "") = none ∧
    (∀ s : String, normalizeIngredientName s = "" →
      findAvoidGuideMatch (some s) = none) ∧
    (∀ s : String, getKey avoidLookup (normalizeIngredientName s) = none →
      findAvoidGuideMatch (some s) = none) ∧
    (∀ (s : String) (m : AvoidGuideMatch), s ≠ "" →
      getKey avoidLookup (normalizeIngredientName s) = some m →
      findAvoidGuideMatch (some s) = some m) := by
  refine ⟨rfl, by simp [findAvoidGuideMatch], ?_, ?_, ?_⟩
  · intro s hs
    by_cases h : s = ""
    · simp [findAvoidGuideMatch, h]
    · simp only [findAvoidGuideMatch, if_neg h]
      rw [hs]
      exact getKey_avoidLookup_empty
  · intro s hk
    by_cases h : s = ""
    · simp [findAvoidGuideMatch, h]
    · simp only [findAvoidGuideMatch, if_neg h]
      exact hk
  · intro s m hs hk
    simp only [findAvoidGuideMatch, if_neg hs]
    exact hk

/-- C5, witness: the contract applied at concrete inputs — an unrelated
ingredient and an all-symbol string give `none`, a registered synonym
gives its stored match. -/
theorem findAvoidGuideMatch_contract_witness :
    findAvoidGuideMatch (some "organic tomatoes") = none ∧
    findAvoidGuideMatch (some "!!!") = none ∧
    findAvoidGuideMatch (some "e320") =
      some ⟨AvoidSectionId.preservatives,
        { slug := "bha", name := "BHA (Butylated Hydroxyanisole)",
          reason := "Potential carcinogen, linked to hormone disruption",
          synonyms := ["bha", "butylated hydroxyanisole", "e320"] }⟩ := by
  refine ⟨?_, ?_, ?_⟩
  · exact findAvoidGuideMatch_contract.2.2.2.1 "organic tomatoes" (by decide)
  · exact findAvoidGuideMatch_contract.2.2.1 "!!!" (by decide)
  · exact findAvoidGuideMatch_contract.2.2.2.2 "e320" _ (by decide) (by decide)

/-- C6: both the E-number synonym `"e320"` and the canonical name
`"BHA (Butylated Hydroxyanisole)"` resolve to the entry with slug
`"bha"`. -/
theorem lookup_synonyms_resolve_bha :
    (findAvoidGuideMatch (some "e320")).map (fun m => m.item.slug) = some "bha" ∧
    (findAvoidGuideMatch (some "BHA (Butylated Hydroxyanisole)")).map
      (fun m => m.item.slug) = some "bha" := by
  decide

/-- C7: every displayed badge label is the matched entry's canonical name
when the hit resolves through the index, and otherwise the trimmed token
title-cased — upper-cased instead when it is at most five characters with
no internal space. -/
theorem badge_label_spec (hits : List String) :
    (flaggedMatches hits).map (fun b => b.label) = hits.map claimBadgeLabel := by
  rw [flaggedMatches]
  by_cases h : hits.isEmpty = true
  · rw [if_pos h]
    rw [List.isEmpty_iff] at h
    subst h
    rfl
  · rw [if_neg h, List.map_map]
    refine List.map_congr_left fun hit _ => ?_
    show (match findAvoidGuideMatch (some hit) with
      | some g => g.item.name
      | none => formatIngredientLabel hit) = claimBadgeLabel hit
    rw [claimBadgeLabel]
    cases hm : findAvoidGuideMatch (some hit) with
    | some g => rfl
    | none => exact formatLabel_eq_claim hit

/-- C8: lookup is invariant under pre-normalization of its argument. -/
theorem lookup_pre_normalization_invariant (s : String) :
    findAvoidGuideMatch (some s) =
      findAvoidGuideMatch (some (normalizeIngredientName s)) := by
  by_cases hn : normalizeIngredientName s = ""
  · rw [hn]
    have hrhs : findAvoidGuideMatch (some "") = none := by
      simp [findAvoidGuideMatch]
    rw [hrhs]
    by_cases hs : s = ""
    · simp [findAvoidGuideMatch, hs]
    · simp only [findAvoidGuideMatch, if_neg hs]
      rw [hn]
      exact getKey_avoidLookup_empty
  · have hs : s ≠ "" := by
      intro habs
      subst habs
      exact hn rfl
    simp only [findAvoidGuideMatch, if_neg hs, if_neg hn]
    rw [normalize_idem]

/-- C9: every curated entry is reachable under both its slug and its
canonical name, returning exactly its own section and item. -/
theorem every_entry_reachable :
    ∀ m ∈ listAllAvoidIngredients,
      findAvoidGuideMatch (some m.item.slug) = some m ∧
      findAvoidGuideMatch (some m.item.name) = some m := by
  decide

/-- C9, witness: the MSG entry is reached by its slug and its name. -/
theorem every_entry_reachable_witness :
    findAvoidGuideMatch (some "msg") =
      some ⟨AvoidSectionId.flavorEnhancers,
        { slug := "msg", name := "MSG (Monosodium Glutamate)",
          reason := "Can cause headaches, flushing, and other sensitivity reactions",
          synonyms := ["msg", "monosodium glutamate", "e621"] }⟩ ∧
    findAvoidGuideMatch (some "MSG (Monosodium Glutamate)") =
      some ⟨AvoidSectionId.flavorEnhancers,
        { slug := "msg", name := "MSG (Monosodium Glutamate)",
          reason := "Can cause headaches, flushing, and other sensitivity reactions",
          synonyms := ["msg", "monosodium glutamate", "e621"] }⟩ :=
  every_entry_reachable
    ⟨AvoidSectionId.flavorEnhancers,
      { slug := "msg", name := "MSG (Monosodium Glutamate)",
        reason := "Can cause headaches, flushing, and other sensitivity reactions",
        synonyms := ["msg", "monosodium glutamate", "e621"] }⟩ (by decide)

/-- C10: normalizer output uses only lowercase ASCII letters, digits,
`+`, `-` and single spaces, with no leading, trailing, or doubled
spaces. -/
theorem normalize_output_shape (s : String) :
    goodShape (normalizeIngredientName s).data = true :=
  normalize_goodShape s

end CleanFood

